import Mathlib

/-
Verification of the configuration pipeline in `ultrathink.py`.

The development shallowly embeds the pure logic of the tool:

* Python `dict` values are modelled as association lists kept in insertion
  order with unique keys, which is the invariant CPython dictionaries
  maintain; assignment is `dictInsert`, `dict.update` is `pyUpdate`, and
  lookup is `lookupD`.
* Python `set(list)` has no canonical enumeration: CPython iterates a
  set in hash-table order, randomized per process.  The optimizer is
  therefore modelled twice: `optimize_configurations_with_seed` takes
  the enumeration as a parameter and is the subject of every
  order-sensitive theorem (quantified over all enumerations), while
  `optimize_configurations` instantiates it with one concrete
  enumeration (`pySet`, first-insertion order) to stay executable;
  membership in the set is order-independent.
* `sorted(d.items(), key=score, reverse=True)` is modelled by the stable
  insertion sort `sortByScoreDesc`.
* Regular-expression extraction is modelled by explicit scanners over
  `List Char` that mirror the deterministic behaviour of the patterns in
  `config_patterns` (each pattern there is backtracking-free because every
  repeated character class is disjoint from the character that follows it).
  The scanners consume the text left to right and restart after each
  match, exactly like `re.finditer`.
-/

set_option maxRecDepth 4000

/-! # Definitions

The data model and the operations of the pipeline, translated from the
source. -/

/-- Model of the Python statement `d[k] = v` on an insertion-ordered
association list: replace the value of the first entry holding key `k`,
or append a fresh entry at the end.  On the unique-key lists produced by
dictionary operations this matches CPython exactly. -/
def dictInsert {α : Type} : List (String × α) → String → α → List (String × α)
  | [], k, v => [(k, v)]
  | p :: ps, k, v => if p.1 == k then (p.1, v) :: ps else p :: dictInsert ps k v

/-- Model of `d.update(e)`: assign every entry of `e` into `d`, in order. -/
def pyUpdate {α : Type} (d e : List (String × α)) : List (String × α) :=
  e.foldl (fun acc p => dictInsert acc p.1 p.2) d

/-- Model of the Python lookup `d[k]` (as an `Option`): value of the first
entry holding key `k`. -/
def lookupD {α : Type} : List (String × α) → String → Option α
  | [], _ => none
  | p :: ps, k => if p.1 == k then some p.2 else lookupD ps k

/-- Value of the last entry of `l` holding key `k`, if any. -/
def lastFind {α : Type} : List (String × α) → String → Option α
  | [], _ => none
  | p :: ps, k =>
    match lastFind ps k with
    | some v => some v
    | none => if p.1 == k then some p.2 else none

/-- One concrete enumeration of `set(l)` for a list of strings: the
distinct elements of `l` in first-occurrence order.  CPython enumerates
a set in hash-table order, randomized per process, so no particular
order is program behaviour; this enumeration only keeps the embedding
executable, and order-sensitive conclusions are proved for every
enumeration through `optimize_configurations_with_seed`. -/
def pySet (l : List String) : List String :=
  l.foldl (fun acc x => if x ∈ acc then acc else acc ++ [x]) []

/-- Insert a scored name in front of the first element whose score is not
larger, keeping earlier-seen elements first among equal scores. -/
def insertDesc (p : String × Int) : List (String × Int) → List (String × Int)
  | [] => [p]
  | q :: qs => if q.2 ≤ p.2 then p :: q :: qs else q :: insertDesc p qs

/-- Stable insertion sort, descending by score.  Agrees with the stable
descending sort used by `sorted(..., reverse=True)` in the source. -/
def sortByScoreDesc (l : List (String × Int)) : List (String × Int) :=
  l.foldr insertDesc []

def isSpaceChar (c : Char) : Bool :=
  c == ' ' || c == '\t' || c == '\n' || c == '\r' || c.toNat == 11 || c.toNat == 12

def isWordChar (c : Char) : Bool :=
  c.isAlphanum || c == '_'

/-- Matches the quote class of the alias and export patterns: a single or
a double quote. -/
def isQuoteChar (c : Char) : Bool :=
  c == '"' || c.toNat == 39

/-- Matches the value class of the alias and export patterns: any
character other than a quote or a newline. -/
def isValueChar (c : Char) : Bool :=
  !isQuoteChar c && c != '\n'

/-- Consume the literal `lit` from the front of `cs`. -/
def dropLit : List Char → List Char → Option (List Char)
  | [], cs => some cs
  | _ :: _, [] => none
  | l :: ls, c :: cs => if c == l then dropLit ls cs else none

/-- Consume a nonempty maximal run of characters satisfying `p`, returning
the run and the rest. -/
def span1 (p : Char → Bool) (cs : List Char) : Option (List Char × List Char) :=
  if (cs.takeWhile p).isEmpty then none else some (cs.takeWhile p, cs.dropWhile p)

/-- Match the pattern `LIT\s+(\w+)=[quote]([^quote-newline]+)[quote]` at the
start of `cs`, as the alias and export patterns of `config_patterns` do
with `LIT` equal to `alias` or `export`.  Returns both captured groups and
the text after the match. -/
def matchKVAt (lit : List Char) (cs : List Char) : Option ((String × String) × List Char) :=
  match dropLit lit cs with
  | none => none
  | some cs1 =>
    match span1 isSpaceChar cs1 with
    | none => none
    | some (_, cs2) =>
      match span1 isWordChar cs2 with
      | none => none
      | some (name, cs3) =>
        match cs3 with
        | '=' :: q1 :: cs5 =>
          if isQuoteChar q1 then
            match span1 isValueChar cs5 with
            | none => none
            | some (value, cs6) =>
              match cs6 with
              | q2 :: rest =>
                if isQuoteChar q2 then some ((String.mk name, String.mk value), rest)
                else none
              | [] => none
          else none
        | _ => none

/-- Replay of `re.finditer`: scan `cs` from the left, attempt `m` at every
position, emit each match and resume after it.  Each attempt consumes at
least one character, so a fuel equal to the length of the text suffices. -/
def scanMatches {α : Type} (m : List Char → Option (α × List Char)) :
    Nat → List Char → List α
  | 0, _ => []
  | _ + 1, [] => []
  | fuel + 1, c :: cs =>
    match m (c :: cs) with
    | some (a, rest) => a :: scanMatches m fuel rest
    | none => scanMatches m fuel cs

def aliasLit : List Char := "alias".data

def exportLit : List Char := "export".data

/-- All matches of the alias pattern of `config_patterns` in `cs`, in
document order. -/
def aliasMatches (cs : List Char) : List (String × String) :=
  scanMatches (matchKVAt aliasLit) cs.length cs

/-- All matches of the export pattern of `config_patterns` in `cs`, in
document order.  `analyze_current_configs` never applies this pattern;
the definition models line 56 of the source, where the pattern is built. -/
def exportMatches (cs : List Char) : List (String × String) :=
  scanMatches (matchKVAt exportLit) cs.length cs

def lbrace : Char := Char.ofNat 123

def rbrace : Char := Char.ofNat 125

/-- Match the function pattern `(\w+)\s*\(\)\s*{([^
-brace]+)}` of `config_patterns` at the start of `cs`. -/
def matchFnAt (cs : List Char) : Option ((String × String) × List Char) :=
  match span1 isWordChar cs with
  | none => none
  | some (name, cs1) =>
    match cs1.dropWhile isSpaceChar with
    | '(' :: ')' :: cs3 =>
      match cs3.dropWhile isSpaceChar with
      | c4 :: cs5 =>
        if c4 == lbrace then
          match span1 (fun c => c != rbrace) cs5 with
          | none => none
          | some (body, cs6) =>
            match cs6 with
            | c6 :: rest =>
              if c6 == rbrace then some ((String.mk name, String.mk body), rest)
              else none
            | [] => none
        else none
      | [] => none
    | _ => none

/-- All matches of the function pattern in `cs`, in document order. -/
def functionMatches (cs : List Char) : List (String × String) :=
  scanMatches matchFnAt cs.length cs

/-- Model of Python `str.strip()` over the ASCII whitespace class. -/
def stripChars (l : List Char) : List Char :=
  ((l.dropWhile isSpaceChar).reverse.dropWhile isSpaceChar).reverse

def stripString (s : String) : String :=
  String.mk (stripChars s.data)

/-- Split a character list into its maximal runs of non-whitespace
characters.  This is what `re.split` on a whitespace-run pattern followed
by discarding empty pieces produces in the plugin extraction. -/
def wordsOf (cs : List Char) : List (List Char) :=
  (cs.foldr
    (fun c acc =>
      if isSpaceChar c then [] :: acc
      else
        match acc with
        | [] => [[c]]
        | w :: ws => (c :: w) :: ws)
    []).filter (fun w => !w.isEmpty)

/-- Remainder of `cs` after the first occurrence of the literal `lit`. -/
def afterFirstLit (lit : List Char) : List Char → Option (List Char)
  | [] =>
    match dropLit lit [] with
    | some r => some r
    | none => none
  | c :: cs =>
    match dropLit lit (c :: cs) with
    | some r => some r
    | none => afterFirstLit lit cs

def pluginsLit : List Char := "plugins=(".data

/-- Model of the plugin extraction in `analyze_current_configs`: the first
match of the non-greedy pattern `plugins=\((.*?)\)` captures the text
between the first `plugins=(` and the first `)` after it; the captured
text is then split on whitespace runs with empty pieces discarded. -/
def extract_zsh_plugins (content : List Char) : List String :=
  match afterFirstLit pluginsLit content with
  | none => []
  | some rest =>
    if (rest.dropWhile (fun c => c != ')')).isEmpty then []
    else (wordsOf (rest.takeWhile (fun c => c != ')'))).map String.mk

/-- The `configs["zsh"]` sub-dictionary built by `analyze_current_configs`. -/
structure ZshConfig where
  plugins : List String
  aliases : List (String × String)
  functions : List (String × String)
  exports : List (String × String)
  deriving Repr, DecidableEq

/-- A pair of tmux option and binding tables. -/
structure TmuxState where
  bindings : List (String × String)
  options : List (String × String)
  deriving Repr, DecidableEq

/-- The `configs["tools"]` sub-dictionary: the catalog split into the
installed and the missing tools. -/
structure ToolsState where
  installed : List String
  missing : List String
  deriving Repr, DecidableEq

/-- The dictionary returned by `analyze_current_configs`. -/
structure CurrentConfigs where
  zsh : ZshConfig
  tmux : TmuxState
  tools : ToolsState
  deriving Repr, DecidableEq

/-- The recommendation dictionary built by `fetch_reddit_recommendations`
(lines 173-180).  Score tables are association lists in dictionary
insertion order, which is the order in which names were first observed. -/
structure Recommendations where
  zsh_plugins : List (String × Int)
  aliases : List (String × String)
  functions : List (String × String)
  tmux_configs : List (String × String)
  tools : List (String × Int)
  themes : List (String × String)
  deriving Repr, DecidableEq

/-- The `optimized["zsh"]` sub-dictionary of `optimize_configurations`. -/
structure OptimizedZsh where
  plugins : List String
  aliases : List (String × String)
  functions : List (String × String)
  exports : List (String × String)
  theme : String
  deriving Repr, DecidableEq

/-- The dictionary returned by `optimize_configurations`. -/
structure OptimizedConfig where
  zsh : OptimizedZsh
  tmux : TmuxState
  tools_to_install : List String
  deriving Repr, DecidableEq

/-- The fixed tool catalog `essential_tools` (lines 37-41). -/
def essential_tools : List String :=
  ["fzf", "ripgrep", "fd", "bat", "eza", "zoxide",
   "delta", "tldr", "jq", "httpie", "lazygit", "btop",
   "glow", "ncdu", "tmux", "gh", "starship"]

/-- Model of `analyze_current_configs` (lines 133-169).  The text of the
shell configuration file is `content` (an absent file reads as empty
text), and the PATH probe for a tool name is the boolean `which_ok`.
Lines 147-159 extract the plugin block, the aliases and the functions;
no statement of the function ever applies the export pattern, so the
`exports` table keeps its initial empty value. -/
def analyze_current_configs (content : List Char) (which_ok : String → Bool) :
    CurrentConfigs :=
  { zsh :=
      { plugins := extract_zsh_plugins content
      , aliases := pyUpdate [] (aliasMatches content)
      , functions :=
          pyUpdate [] ((functionMatches content).map (fun p => (p.1, stripString p.2)))
      , exports := [] }
  , tmux := { bindings := [], options := [] }
  , tools :=
      { installed := essential_tools.filter which_ok
      , missing := essential_tools.filter (fun t => !which_ok t) } }

/-- The static plugin score table of `_add_known_good_configs`. -/
def popular_plugins : List (String × Int) :=
  [("git", 1000), ("zsh-autosuggestions", 2500), ("zsh-syntax-highlighting", 2400),
   ("zsh-completions", 1800), ("fzf", 2200), ("z", 1500), ("extract", 1200),
   ("docker", 1100), ("kubectl", 900), ("nvm", 800), ("pyenv", 700),
   ("thefuck", 1600), ("autojump", 1300)]

/-- The static alias table of `_add_known_good_configs`. -/
def popular_aliases : List (String × String) :=
  [("ll", "ls -alF"), ("la", "ls -A"), ("l", "ls -CF"), ("..", "cd .."),
   ("...", "cd ../.."), ("g", "git"), ("gc", "git commit"), ("gp", "git push"),
   ("gl", "git pull"), ("gst", "git status"), ("gd", "git diff"),
   ("gco", "git checkout"), ("gcb", "git checkout -b"), ("k", "kubectl"),
   ("d", "docker"), ("dc", "docker-compose"), ("vim", "nvim"), ("cat", "bat"),
   ("ls", "eza"), ("find", "fd"), ("grep", "rg"), ("top", "btop")]

/-- The static tool score table of `_add_known_good_configs`. -/
def popular_tools : List (String × Int) :=
  [("starship", 2000), ("fzf", 2500), ("ripgrep", 2200), ("fd", 1800),
   ("bat", 1900), ("eza", 1700), ("zoxide", 1600), ("delta", 1400),
   ("lazygit", 1500), ("btop", 1300), ("tldr", 1200), ("httpie", 1000),
   ("jq", 1100), ("yq", 900), ("glow", 800), ("ncdu", 700)]

/-- Model of the score accumulation statements (lines 231-233 and
259-262): initialise a missing key with zero, then add `s` to its value. -/
def bumpScore : List (String × Int) → String → Int → List (String × Int)
  | [], k, s => [(k, s)]
  | p :: ps, k, s => if p.1 == k then (p.1, p.2 + s) :: ps else p :: bumpScore ps k s

/-- Model of `_extract_configs_from_text` (lines 217-233).  The three
regular-expression templates and the comma-and-whitespace split of lines
220-229 are abstracted as the already-extracted candidate list
`candidates`; the loop of lines 230-233 adds the popularity score of the
item to the accumulated score of every candidate, and touches no other
component of the recommendation dictionary. -/
def extract_configs_from_text (candidates : List String) (score : Int)
    (recommendations : Recommendations) : Recommendations :=
  { recommendations with
    zsh_plugins :=
      candidates.foldl (fun d name => bumpScore d name score)
        recommendations.zsh_plugins }

/-- Model of `_add_known_good_configs` (lines 240-310): add the static
plugin scores into the plugin score table, update the alias table with
the static aliases, and replace the tool table wholesale. -/
def add_known_good_configs (recommendations : Recommendations) : Recommendations :=
  { recommendations with
    zsh_plugins :=
      popular_plugins.foldl (fun d p => bumpScore d p.1 p.2)
        recommendations.zsh_plugins
  , aliases := pyUpdate recommendations.aliases popular_aliases
  , tools := popular_tools }

/-- The empty recommendation dictionary of lines 173-180. -/
def initial_recommendations : Recommendations :=
  { zsh_plugins := [], aliases := [], functions := [], tmux_configs := []
  , tools := [], themes := [] }

/-- The per-post body of the fetch loop (lines 191-207): a post whose
score exceeds 100 has its text scanned for candidate plugin names, and
the secondary comment fetch for posts with score above 500 is a no-op in
the source (`_fetch_post_comments` is `pass`), so it has no effect. -/
def fetch_post_step (r : Recommendations) (post : List String × Int) :
    Recommendations :=
  if 100 < post.2 then extract_configs_from_text post.1 post.2 r else r

/-- Model of `fetch_reddit_recommendations` (lines 171-215).  Each post of
each feed is abstracted as the pair of its extracted candidate names and
its score; after all posts are processed, the static known-good tables
are merged in. -/
def fetch_reddit_recommendations (posts : List (List String × Int)) :
    Recommendations :=
  add_known_good_configs (posts.foldl fetch_post_step initial_recommendations)

/-- The static tmux table of `_generate_optimized_tmux_config`
(lines 354-378). -/
def generate_optimized_tmux_config : TmuxState :=
  { options :=
      [("prefix", "C-a"), ("base-index", "1"), ("mouse", "on"),
       ("history-limit", "50000"), ("default-terminal", "screen-256color"),
       ("status-position", "bottom"), ("renumber-windows", "on")]
  , bindings :=
      [("C-a", "send-prefix"),
       ("|", "split-window -h -c \"#{pane_current_path}\""),
       ("-", "split-window -v -c \"#{pane_current_path}\""),
       ("r", "source-file ~/.tmux.conf \\; display-message \"Config reloaded!\""),
       ("h", "select-pane -L"), ("j", "select-pane -D"), ("k", "select-pane -U"),
       ("l", "select-pane -R"),
       ("m", "set -g mouse on \\; display \"Mouse: ON\""),
       ("M", "set -g mouse off \\; display \"Mouse: OFF\"")] }

/-- Model of `optimize_configurations` (lines 312-352), parameterized by
the enumeration order of the Python set built on line 330.
`current_plugins` is that set of the current plugin list: `seed` is the
sequence in which line 334 enumerates it, and the membership tests of
line 337 test membership in it.  CPython iterates a set in hash-table
order, randomized per process, so every duplicate-free sequence holding
exactly the distinct current plugin names is a possible `seed`; theorems
about the seeded prefix quantify over all of them.  The top fifteen
recommended plugins are appended when new and scoring above 500, the
recommended aliases are merged over a copy of the current aliases, and
the recommended tools scoring above 600 and not installed are collected.
The `functions` and `exports` tables and the theme keep their initial
values, and the tmux table is the static one. -/
def optimize_configurations_with_seed (seed : List String)
    (current : CurrentConfigs) (reddit : Recommendations) : OptimizedConfig :=
  let reddit_plugins := sortByScoreDesc reddit.zsh_plugins
  { zsh :=
      { plugins :=
          (reddit_plugins.take 15).foldl
            (fun acc p => if p.1 ∉ seed ∧ 500 < p.2 then acc ++ [p.1] else acc)
            seed
      , aliases := pyUpdate current.zsh.aliases reddit.aliases
      , functions := []
      , exports := []
      , theme := "starship" }
  , tmux := generate_optimized_tmux_config
  , tools_to_install :=
      reddit.tools.foldl
        (fun acc t =>
          if t.1 ∉ current.tools.installed ∧ 600 < t.2 then acc ++ [t.1] else acc)
        [] }

/-- Model of `optimize_configurations` as executed: the set of line 330
is enumerated in one concrete order (`pySet`, first-insertion order) so
that the function stays executable on concrete inputs.  Which order
CPython actually uses is hash-dependent; every conclusion that depends
on the enumeration order is proved for all enumerations through
`optimize_configurations_with_seed`. -/
def optimize_configurations (current : CurrentConfigs) (reddit : Recommendations) :
    OptimizedConfig :=
  optimize_configurations_with_seed (pySet current.zsh.plugins) current reddit

def c5current : CurrentConfigs :=
  { zsh := { plugins := [], aliases := [("ll", "ls -la")], functions := [], exports := [] }
  , tmux := { bindings := [], options := [] }
  , tools := { installed := [], missing := [] } }

def c5reddit : Recommendations :=
  { initial_recommendations with aliases := [("ll", "ls -alF")] }

def c7current : CurrentConfigs :=
  { zsh := { plugins := [], aliases := [], functions := [], exports := [] }
  , tmux := { bindings := [], options := [] }
  , tools := { installed := ["bat"], missing := [] } }

def c7reddit : Recommendations :=
  { initial_recommendations with tools := [("fzf", 2500), ("bat", 1900)] }

/-- Model of the statement sequence of `optimize_configurations` with the
input dictionaries threaded explicitly through the call: every operation
the source applies to its inputs (`set`, `sorted`, `.copy`, `.items`
iteration, membership tests) only reads them, and the single mutating
alias operation (`.update`, line 342) acts on the fresh copy made on
line 341, so the input stores pass through the call unchanged. -/
def optimize_configurations_effects (current : CurrentConfigs)
    (reddit : Recommendations) :
    CurrentConfigs × Recommendations × OptimizedConfig :=
  (current, reddit, optimize_configurations current reddit)

def c8current : CurrentConfigs :=
  { zsh := { plugins := ["git"], aliases := [("g", "git")], functions := [], exports := [] }
  , tmux := { bindings := [], options := [] }
  , tools := { installed := ["fzf"], missing := ["bat"] } }

/-- Accumulated score of `k` in the table `d`, zero when absent. -/
def scoreOf (d : List (String × Int)) (k : String) : Int :=
  (lookupD d k).getD 0

def c1current : CurrentConfigs :=
  { zsh := { plugins := ["git", "git"], aliases := [], functions := [], exports := [] }
  , tmux := { bindings := [], options := [] }
  , tools := { installed := [], missing := [] } }

def c1wcurrent : CurrentConfigs :=
  { zsh := { plugins := ["git", "z"], aliases := [], functions := [], exports := [] }
  , tmux := { bindings := [], options := [] }
  , tools := { installed := [], missing := [] } }

def c1wreddit : Recommendations :=
  { initial_recommendations with zsh_plugins := [("fzf", 600), ("zoxide", 100)] }

/-- Specification-side description of one occurrence of the
`LIT NAME="VALUE"` syntax inside a text, following the wording of the
spec: the name is a nonempty word, the value is nonempty and contains no
quote and no newline, and each of the two quotes is single or double. -/
def IsKVOccurrence (lit text : List Char) (n v : String) : Prop :=
  ∃ pre ws q1 q2 post,
    text = pre ++ lit ++ ws ++ n.data ++ '=' :: q1 :: (v.data ++ q2 :: post)
    ∧ ws ≠ [] ∧ (∀ c ∈ ws, isSpaceChar c = true)
    ∧ n.data ≠ [] ∧ (∀ c ∈ n.data, isWordChar c = true)
    ∧ v.data ≠ [] ∧ (∀ c ∈ v.data, isValueChar c = true)
    ∧ isQuoteChar q1 = true ∧ isQuoteChar q2 = true

def c2text : List Char := "export PATH=\"/usr/bin\"".data

def c3text : List Char := "alias a=\"alias b=\" more\"".data

def c3wtext : List Char := "alias ll=\"ls -la\"".data

/-! # Theorems -/

/-! ## Lemmas about the dictionary model -/

theorem lookupD_dictInsert {α : Type} (d : List (String × α)) (k k' : String) (v : α) :
    lookupD (dictInsert d k v) k' = if k' = k then some v else lookupD d k' := by
  induction d with
  | nil =>
    by_cases h : k' = k
    · subst h; simp [dictInsert, lookupD]
    · simp [dictInsert, lookupD, beq_iff_eq, h, Ne.symm h]
  | cons p ps ih =>
    by_cases h : k' = k
    · subst h
      by_cases hpk : p.1 = k'
      · simp [dictInsert, lookupD, beq_iff_eq, hpk]
      · simp [dictInsert, lookupD, beq_iff_eq, hpk, ih]
    · by_cases hpk : p.1 = k
      · have hp1 : ¬ p.1 = k' := fun hh => h (hh.symm.trans hpk)
        simp [dictInsert, lookupD, beq_iff_eq, hpk, h, hp1, Ne.symm h]
      · simp [dictInsert, lookupD, beq_iff_eq, hpk, h, ih]

theorem lookupD_pyUpdate {α : Type} (e d : List (String × α)) (k : String) :
    lookupD (pyUpdate d e) k =
      match lastFind e k with
      | some v => some v
      | none => lookupD d k := by
  induction e generalizing d with
  | nil => simp [pyUpdate, lastFind]
  | cons p ps ih =>
    have hstep : pyUpdate d (p :: ps) = pyUpdate (dictInsert d p.1 p.2) ps := rfl
    rw [hstep, ih]
    cases hl : lastFind ps k with
    | some v => simp [lastFind, hl]
    | none =>
      by_cases hk : p.1 = k
      · simp [lastFind, hl, hk, lookupD_dictInsert]
      · have hk2 : ¬ k = p.1 := fun hh => hk hh.symm
        simp [lastFind, hl, hk, hk2, lookupD_dictInsert]

theorem lastFind_eq_none_of_not_mem {α : Type} (e : List (String × α)) (k : String)
    (h : k ∉ e.map Prod.fst) : lastFind e k = none := by
  induction e with
  | nil => rfl
  | cons p ps ih =>
    have hps : k ∉ ps.map Prod.fst := fun hm => h (List.mem_cons_of_mem _ hm)
    have hk : ¬ p.1 = k := fun hh => h (by simp [hh])
    simp [lastFind, ih hps, hk]

theorem lastFind_eq_some_of_nodup {α : Type} :
    ∀ (e : List (String × α)) (k : String) (v : α),
      (e.map Prod.fst).Nodup → (k, v) ∈ e → lastFind e k = some v := by
  intro e
  induction e with
  | nil => intro k v _ hmem; cases hmem
  | cons p ps ih =>
    intro k v hnd hmem
    have hnd2 : (ps.map Prod.fst).Nodup := (List.nodup_cons.mp (by simpa using hnd)).2
    have hhead : p.1 ∉ ps.map Prod.fst := (List.nodup_cons.mp (by simpa using hnd)).1
    rcases List.mem_cons.mp hmem with heq | hmem2
    · have hk : p.1 = k := by rw [← heq]
      have hv : p.2 = v := by rw [← heq]
      simp [lastFind, lastFind_eq_none_of_not_mem ps k (hk ▸ hhead), beq_iff_eq, hk, hv]
    · simp [lastFind, ih k v hnd2 hmem2]

theorem exists_lastFind_of_mem {α : Type} :
    ∀ (e : List (String × α)) (k : String) (v : α),
      (k, v) ∈ e → ∃ w, lastFind e k = some w := by
  intro e
  induction e with
  | nil => intro k v hmem; cases hmem
  | cons p ps ih =>
    intro k v hmem
    rcases List.mem_cons.mp hmem with hceq | hmem2
    · cases hl : lastFind ps k with
      | some w => exact ⟨w, by simp [lastFind, hl]⟩
      | none =>
        have hk : p.1 = k := by rw [← hceq]
        exact ⟨p.2, by simp [lastFind, hl, beq_iff_eq, hk]⟩
    · obtain ⟨w, hw⟩ := ih k v hmem2
      exact ⟨w, by simp [lastFind, hw]⟩

/-! ## Lemmas about the set model -/

theorem mem_foldl_insert (l : List String) :
    ∀ (acc : List String) (x : String),
      (x ∈ l.foldl (fun acc y => if y ∈ acc then acc else acc ++ [y]) acc) ↔ x ∈ acc ∨ x ∈ l := by
  induction l with
  | nil => intro acc x; simp
  | cons a l ih =>
    intro acc x
    by_cases ha : a ∈ acc
    · simp only [List.foldl_cons, if_pos ha, ih]
      constructor
      · rintro (h | h)
        · exact Or.inl h
        · exact Or.inr (List.mem_cons_of_mem _ h)
      · rintro (h | h)
        · exact Or.inl h
        · rcases List.mem_cons.mp h with rfl | h2
          · exact Or.inl ha
          · exact Or.inr h2
    · simp only [List.foldl_cons, if_neg ha, ih]
      constructor
      · rintro (h | h)
        · rcases List.mem_append.mp h with h1 | h1
          · exact Or.inl h1
          · exact Or.inr (by simp at h1; simp [h1])
        · exact Or.inr (List.mem_cons_of_mem _ h)
      · rintro (h | h)
        · exact Or.inl (List.mem_append.mpr (Or.inl h))
        · rcases List.mem_cons.mp h with rfl | h2
          · exact Or.inl (List.mem_append.mpr (Or.inr (by simp)))
          · exact Or.inr h2

theorem mem_pySet (l : List String) (x : String) : x ∈ pySet l ↔ x ∈ l := by
  unfold pySet
  rw [mem_foldl_insert]
  simp

theorem nodup_foldl_insert (l : List String) :
    ∀ acc : List String, acc.Nodup →
      (l.foldl (fun acc y => if y ∈ acc then acc else acc ++ [y]) acc).Nodup := by
  induction l with
  | nil => intro acc h; simpa using h
  | cons a l ih =>
    intro acc hacc
    by_cases ha : a ∈ acc
    · simpa [if_pos ha] using ih acc hacc
    · have hacc2 : (acc ++ [a]).Nodup := by
        simp [List.nodup_append, hacc, ha]
      simpa [if_neg ha] using ih (acc ++ [a]) hacc2

theorem nodup_pySet (l : List String) : (pySet l).Nodup :=
  nodup_foldl_insert l [] List.nodup_nil

/-! ## The stable descending sort -/

theorem perm_insertDesc (p : String × Int) (l : List (String × Int)) :
    (insertDesc p l).Perm (p :: l) := by
  induction l with
  | nil => simp [insertDesc]
  | cons q qs ih =>
    by_cases h : q.2 ≤ p.2
    · simp [insertDesc, h]
    · simp only [insertDesc, if_neg h]
      exact (List.Perm.cons q ih).trans (List.Perm.swap p q qs)

theorem perm_sortByScoreDesc (l : List (String × Int)) :
    (sortByScoreDesc l).Perm l := by
  induction l with
  | nil => simp [sortByScoreDesc]
  | cons p ps ih =>
    have : sortByScoreDesc (p :: ps) = insertDesc p (sortByScoreDesc ps) := rfl
    rw [this]
    exact (perm_insertDesc p (sortByScoreDesc ps)).trans (List.Perm.cons p ih)

theorem pairwise_insertDesc (p : String × Int) (l : List (String × Int))
    (h : List.Pairwise (fun a b : String × Int => b.2 ≤ a.2) l) :
    List.Pairwise (fun a b : String × Int => b.2 ≤ a.2) (insertDesc p l) := by
  induction l with
  | nil => simp [insertDesc]
  | cons q qs ih =>
    rcases List.pairwise_cons.mp h with ⟨hq, hqs⟩
    by_cases hle : q.2 ≤ p.2
    · simp only [insertDesc, if_pos hle]
      refine List.pairwise_cons.mpr ⟨?_, h⟩
      intro b hb
      rcases List.mem_cons.mp hb with rfl | hb2
      · exact hle
      · exact le_trans (hq b hb2) hle
    · simp only [insertDesc, if_neg hle]
      refine List.pairwise_cons.mpr ⟨?_, ih hqs⟩
      intro b hb
      have hmem := (perm_insertDesc p qs).mem_iff.mp hb
      rcases List.mem_cons.mp hmem with rfl | hb2
      · exact le_of_not_le hle
      · exact hq b hb2

theorem pairwise_sortByScoreDesc (l : List (String × Int)) :
    List.Pairwise (fun a b : String × Int => b.2 ≤ a.2) (sortByScoreDesc l) := by
  induction l with
  | nil => simp [sortByScoreDesc]
  | cons p ps ih => exact pairwise_insertDesc p (sortByScoreDesc ps) ih

theorem filter_insertDesc (p : String × Int) (l : List (String × Int)) (s : Int) :
    (insertDesc p l).filter (fun q => q.2 == s) =
      (if p.2 == s then [p] else []) ++ l.filter (fun q => q.2 == s) := by
  induction l with
  | nil => by_cases h : p.2 = s <;> simp [insertDesc, h]
  | cons q qs ih =>
    by_cases hle : q.2 ≤ p.2
    · simp only [insertDesc, if_pos hle]
      by_cases hp : p.2 = s <;> by_cases hq : q.2 = s <;>
        simp [List.filter_cons, hp, hq]
    · simp only [insertDesc, if_neg hle]
      by_cases hq : q.2 = s
      · have hps : ¬ p.2 = s := fun hps => hle (le_of_eq (hq.trans hps.symm))
        simp [List.filter_cons, hq, hps, ih]
      · simp [List.filter_cons, hq, ih]

theorem filter_sortByScoreDesc (l : List (String × Int)) (s : Int) :
    (sortByScoreDesc l).filter (fun q => q.2 == s) = l.filter (fun q => q.2 == s) := by
  induction l with
  | nil => simp [sortByScoreDesc]
  | cons p ps ih =>
    have hstep : sortByScoreDesc (p :: ps) = insertDesc p (sortByScoreDesc ps) := rfl
    rw [hstep, filter_insertDesc, ih]
    by_cases hp : p.2 = s <;> simp [List.filter_cons, hp]

theorem foldl_select_map (g : String × Int → Prop) [DecidablePred g] :
    ∀ (l : List (String × Int)) (acc : List String),
      l.foldl (fun a p => if g p then a ++ [p.1] else a) acc =
        acc ++ (l.filter (fun p => decide (g p))).map Prod.fst := by
  intro l
  induction l with
  | nil => intro acc; simp
  | cons p ps ih =>
    intro acc
    by_cases h : g p
    · simp [List.filter_cons, h, ih, List.append_assoc]
    · simp [List.filter_cons, h, ih]

/-! ## The optimizer: aliases, tools, purity -/

theorem tools_to_install_eq (current : CurrentConfigs) (reddit : Recommendations) :
    (optimize_configurations current reddit).tools_to_install
      = (reddit.tools.filter
          (fun t => decide (t.1 ∉ current.tools.installed ∧ 600 < t.2))).map Prod.fst := by
  have h := foldl_select_map
    (fun t : String × Int => t.1 ∉ current.tools.installed ∧ 600 < t.2) reddit.tools []
  simp only [List.nil_append] at h
  exact h

/-- C5: for every pair of current and recommended alias mappings, the
merged alias mapping of the optimizer maps each key of the recommended
mapping to its recommended command, and each key present only in the
current mapping to its current command. -/
theorem optimize_alias_merge_reco_wins :
    ∀ (current : CurrentConfigs) (reddit : Recommendations) (k : String),
      ((reddit.aliases.map Prod.fst).Nodup →
        ∀ v, (k, v) ∈ reddit.aliases →
          lookupD (optimize_configurations current reddit).zsh.aliases k = some v)
      ∧ (k ∉ reddit.aliases.map Prod.fst →
          lookupD (optimize_configurations current reddit).zsh.aliases k
            = lookupD current.zsh.aliases k) := by
  intro current reddit k
  have hal : (optimize_configurations current reddit).zsh.aliases
      = pyUpdate current.zsh.aliases reddit.aliases := rfl
  constructor
  · intro hnd v hmem
    rw [hal, lookupD_pyUpdate, lastFind_eq_some_of_nodup reddit.aliases k v hnd hmem]
  · intro hnot
    rw [hal, lookupD_pyUpdate, lastFind_eq_none_of_not_mem reddit.aliases k hnot]

/-- Witness for C5, instantiating the end-to-end scenario of the spec:
the current aliases define `ll` as `ls -la`, the recommendations define
`ll` as `ls -alF`, and the merged table maps `ll` to `ls -alF`. -/
theorem optimize_alias_merge_reco_wins_witness :
    lookupD (optimize_configurations c5current c5reddit).zsh.aliases "ll"
      = some "ls -alF" :=
  (optimize_alias_merge_reco_wins c5current c5reddit "ll").1 (by decide) "ls -alF" (by decide)

/-- C6: the alias merge of the optimizer (lines 341-342, modelled by
`pyUpdate`) is idempotent: merging the recommended aliases a second time
into an already merged table leaves the mapping unchanged. -/
theorem alias_merge_idempotent :
    ∀ (c r : List (String × String)) (k : String),
      lookupD (pyUpdate (pyUpdate c r) r) k = lookupD (pyUpdate c r) k := by
  intro c r k
  rw [lookupD_pyUpdate, lookupD_pyUpdate]
  cases lastFind r k <;> simp

/-- C7: the tools to install are exactly the recommended tool names with
score above 600 that are not installed; an installed tool never appears. -/
theorem optimize_tools_to_install_spec :
    ∀ (current : CurrentConfigs) (reddit : Recommendations) (t : String),
      (t ∈ (optimize_configurations current reddit).tools_to_install
        ↔ ∃ s : Int, (t, s) ∈ reddit.tools ∧ 600 < s ∧ t ∉ current.tools.installed)
      ∧ (t ∈ current.tools.installed →
          t ∉ (optimize_configurations current reddit).tools_to_install) := by
  intro current reddit t
  have heq := tools_to_install_eq current reddit
  have hiff : t ∈ (optimize_configurations current reddit).tools_to_install
      ↔ ∃ s : Int, (t, s) ∈ reddit.tools ∧ 600 < s ∧ t ∉ current.tools.installed := by
    rw [heq]
    constructor
    · intro h
      rcases List.mem_map.mp h with ⟨p, hp, hfst⟩
      rcases List.mem_filter.mp hp with ⟨hpl, hdec⟩
      have hprop := of_decide_eq_true hdec
      subst hfst
      exact ⟨p.2, by simpa using hpl, hprop.2, hprop.1⟩
    · rintro ⟨s, hmem, hs, hnot⟩
      exact List.mem_map.mpr
        ⟨(t, s), List.mem_filter.mpr ⟨hmem, decide_eq_true ⟨hnot, hs⟩⟩, rfl⟩
  refine ⟨hiff, ?_⟩
  intro hin hmem
  rcases hiff.mp hmem with ⟨s, _, _, hnot⟩
  exact hnot hin

/-- Witness for C7: with `bat` installed, the recommended tool `fzf`
(score 2500) is collected and the recommended tool `bat` (score 1900) is
not, despite its score. -/
theorem optimize_tools_to_install_spec_witness :
    "fzf" ∈ (optimize_configurations c7current c7reddit).tools_to_install
    ∧ "bat" ∉ (optimize_configurations c7current c7reddit).tools_to_install :=
  ⟨(optimize_tools_to_install_spec c7current c7reddit "fzf").1.mpr
      ⟨2500, by decide, by decide, by decide⟩,
   (optimize_tools_to_install_spec c7current c7reddit "bat").2 (by decide)⟩

/-- C8: the optimizer is a pure function: the threaded input stores come
back unchanged, and equal inputs give equal outputs. -/
theorem optimize_configurations_pure :
    ∀ (c1 c2 : CurrentConfigs) (r1 r2 : Recommendations),
      c1 = c2 → r1 = r2 →
        optimize_configurations_effects c1 r1
            = (c1, r1, optimize_configurations c1 r1)
        ∧ optimize_configurations c1 r1 = optimize_configurations c2 r2 := by
  intro c1 c2 r1 r2 hc hr
  subst hc; subst hr
  exact ⟨rfl, rfl⟩

/-- Witness for C8 at a concrete input. -/
theorem optimize_configurations_pure_witness :
    optimize_configurations_effects c8current initial_recommendations
        = (c8current, initial_recommendations,
            optimize_configurations c8current initial_recommendations)
    ∧ optimize_configurations c8current initial_recommendations
        = optimize_configurations c8current initial_recommendations :=
  optimize_configurations_pure c8current c8current
    initial_recommendations initial_recommendations rfl rfl

/-! ## Additive accumulation of plugin scores -/

theorem lookupD_bumpScore (d : List (String × Int)) (k k' : String) (s : Int) :
    lookupD (bumpScore d k s) k' =
      if k' = k then some ((lookupD d k).getD 0 + s) else lookupD d k' := by
  induction d with
  | nil =>
    by_cases h : k' = k
    · subst h; simp [bumpScore, lookupD]
    · simp [bumpScore, lookupD, beq_iff_eq, h, Ne.symm h]
  | cons p ps ih =>
    by_cases h : k' = k
    · subst h
      by_cases hpk : p.1 = k'
      · simp [bumpScore, lookupD, beq_iff_eq, hpk]
      · simp [bumpScore, lookupD, beq_iff_eq, hpk, ih]
    · by_cases hpk : p.1 = k
      · have hp1 : ¬ p.1 = k' := fun hh => h (hh.symm.trans hpk)
        simp [bumpScore, lookupD, beq_iff_eq, hpk, h, hp1, Ne.symm h]
      · simp [bumpScore, lookupD, beq_iff_eq, hpk, h, ih]

theorem scoreOf_bumpScore (d : List (String × Int)) (k k' : String) (s : Int) :
    scoreOf (bumpScore d k s) k' = scoreOf d k' + if k' = k then s else 0 := by
  unfold scoreOf
  rw [lookupD_bumpScore]
  by_cases h : k' = k
  · subst h; simp
  · simp [h]

theorem scoreOf_foldl_bump_const (cands : List String) :
    ∀ (d : List (String × Int)) (s : Int) (k : String),
      scoreOf (cands.foldl (fun d name => bumpScore d name s) d) k
        = scoreOf d k + s * (cands.count k : Int) := by
  induction cands with
  | nil => intro d s k; simp
  | cons c cs ih =>
    intro d s k
    rw [List.foldl_cons, ih, scoreOf_bumpScore]
    by_cases h : k = c
    · have hcount : (((c :: cs).count k : Nat) : Int) = ((cs.count k : Nat) : Int) + 1 := by
        subst h
        push_cast [List.count_cons_self]
        ring
      rw [if_pos h, hcount]
      ring
    · have hcount : (c :: cs).count k = cs.count k := by
        simp [List.count_cons, beq_iff_eq, h]
      rw [hcount, if_neg h]
      simp

theorem scoreOf_foldl_bump (l : List (String × Int)) :
    ∀ (d : List (String × Int)) (k : String),
      scoreOf (l.foldl (fun d p => bumpScore d p.1 p.2) d) k
        = scoreOf d k + ((l.filter (fun p => p.1 == k)).map Prod.snd).sum := by
  induction l with
  | nil => intro d k; simp
  | cons p ps ih =>
    intro d k
    rw [List.foldl_cons, ih, scoreOf_bumpScore]
    by_cases h : p.1 = k
    · have hfil : (p :: ps).filter (fun q => q.1 == k) = p :: ps.filter (fun q => q.1 == k) := by
        simp [List.filter_cons, beq_iff_eq, h]
      rw [hfil, if_pos h.symm]
      simp [add_assoc]
    · have hfil : (p :: ps).filter (fun q => q.1 == k) = ps.filter (fun q => q.1 == k) := by
        simp [List.filter_cons, beq_iff_eq, h]
      rw [hfil, if_neg (fun hh => h hh.symm)]
      simp

/-- C9: plugin scores accumulate additively.  A feed item adds its score
to the accumulated score of every candidate name its text yields (once
per extracted occurrence), and the static known-good table adds its
fixed scores on top, so a name contributed by several sources ends with
the sum of all of their scores. -/
theorem plugin_scores_accumulate_additively :
    ∀ (candidates : List String) (score : Int) (r : Recommendations) (k : String),
      scoreOf (extract_configs_from_text candidates score r).zsh_plugins k
        = scoreOf r.zsh_plugins k + score * (candidates.count k : Int)
      ∧ scoreOf (add_known_good_configs r).zsh_plugins k
        = scoreOf r.zsh_plugins k
          + ((popular_plugins.filter (fun p => p.1 == k)).map Prod.snd).sum := by
  intro candidates score r k
  exact ⟨scoreOf_foldl_bump_const candidates r.zsh_plugins score k,
         scoreOf_foldl_bump popular_plugins r.zsh_plugins k⟩

/-! ## Frame property of the text extraction -/

theorem foldl_extract_frame (posts : List (List String × Int)) :
    ∀ r : Recommendations,
      (posts.foldl fetch_post_step r).aliases = r.aliases
      ∧ (posts.foldl fetch_post_step r).tools = r.tools := by
  induction posts with
  | nil => intro r; exact ⟨rfl, rfl⟩
  | cons post posts ih =>
    intro r
    by_cases h : 100 < post.2
    · simpa [List.foldl_cons, fetch_post_step, h]
        using ih (extract_configs_from_text post.1 post.2 r)
    · simpa [List.foldl_cons, fetch_post_step, h] using ih r

theorem dictInsert_eq_append {α : Type} :
    ∀ (d : List (String × α)) (k : String) (v : α),
      k ∉ d.map Prod.fst → dictInsert d k v = d ++ [(k, v)] := by
  intro d
  induction d with
  | nil => intro k v _; rfl
  | cons p ps ih =>
    intro k v h
    have hpk : ¬ p.1 = k := fun hh => h (by simp [hh])
    have h2 : k ∉ ps.map Prod.fst := fun hm =>
      h (by simp only [List.map_cons]; exact List.mem_cons_of_mem _ hm)
    simp [dictInsert, beq_iff_eq, hpk, ih k v h2]

theorem pyUpdate_eq_append {α : Type} :
    ∀ (e d : List (String × α)),
      (e.map Prod.fst).Nodup → (∀ k ∈ e.map Prod.fst, k ∉ d.map Prod.fst) →
      pyUpdate d e = d ++ e := by
  intro e
  induction e with
  | nil => intro d _ _; simp [pyUpdate]
  | cons p ps ih =>
    intro d hnd hdis
    have hp : p.1 ∉ d.map Prod.fst := hdis p.1 (by simp)
    have hstep : pyUpdate d (p :: ps) = pyUpdate (dictInsert d p.1 p.2) ps := rfl
    rw [hstep, dictInsert_eq_append d p.1 p.2 hp]
    have hnd2 : (ps.map Prod.fst).Nodup := (List.nodup_cons.mp (by simpa using hnd)).2
    have hhd : p.1 ∉ ps.map Prod.fst := (List.nodup_cons.mp (by simpa using hnd)).1
    have hdis2 : ∀ k ∈ ps.map Prod.fst, k ∉ (d ++ [(p.1, p.2)]).map Prod.fst := by
      intro k hk
      simp only [List.map_append, List.mem_append]
      rintro (hd | hd)
      · exact hdis k (by simp only [List.map_cons]; exact List.mem_cons_of_mem _ hk) hd
      · simp only [List.map_cons, List.map_nil, List.mem_singleton] at hd
        exact hhd (hd ▸ hk)
    rw [ih (d ++ [(p.1, p.2)]) hnd2 hdis2]
    simp

/-- C10: the text extraction only ever writes the plugin score table:
aliases, functions, tmux configs, tools and themes pass through it
unchanged, and consequently the recommended aliases and recommended
tools of a full fetch are exactly the static known-good tables. -/
theorem extract_configs_frame_and_static_tables :
    ∀ (candidates : List String) (score : Int) (r : Recommendations)
      (posts : List (List String × Int)),
      (extract_configs_from_text candidates score r).aliases = r.aliases
      ∧ (extract_configs_from_text candidates score r).functions = r.functions
      ∧ (extract_configs_from_text candidates score r).tmux_configs = r.tmux_configs
      ∧ (extract_configs_from_text candidates score r).tools = r.tools
      ∧ (extract_configs_from_text candidates score r).themes = r.themes
      ∧ (fetch_reddit_recommendations posts).aliases = popular_aliases
      ∧ (fetch_reddit_recommendations posts).tools = popular_tools := by
  intro candidates score r posts
  have hfold := (foldl_extract_frame posts initial_recommendations).1
  have halias : (fetch_reddit_recommendations posts).aliases
      = pyUpdate (posts.foldl fetch_post_step initial_recommendations).aliases
          popular_aliases := by
    simp [fetch_reddit_recommendations, add_known_good_configs]
  refine ⟨?_, ?_, ?_, ?_, ?_, ?_, ?_⟩
  · simp [extract_configs_from_text]
  · simp [extract_configs_from_text]
  · simp [extract_configs_from_text]
  · simp [extract_configs_from_text]
  · simp [extract_configs_from_text]
  · have hinit : initial_recommendations.aliases = ([] : List (String × String)) := rfl
    rw [halias, hfold, hinit,
      pyUpdate_eq_append popular_aliases [] (by decide) (by intro k _ hk; cases hk)]
    simp
  · simp [fetch_reddit_recommendations, add_known_good_configs]

/-! ## The plugin sequence of the optimizer -/

theorem optimize_plugins_eq (current : CurrentConfigs) (reddit : Recommendations) :
    (optimize_configurations current reddit).zsh.plugins
      = pySet current.zsh.plugins
        ++ (((sortByScoreDesc reddit.zsh_plugins).take 15).filter
              (fun p => decide (p.1 ∉ pySet current.zsh.plugins ∧ 500 < p.2))).map Prod.fst :=
  foldl_select_map
    (fun p : String × Int => p.1 ∉ pySet current.zsh.plugins ∧ 500 < p.2)
    ((sortByScoreDesc reddit.zsh_plugins).take 15) (pySet current.zsh.plugins)

/-- C1 (counterexample): with the current plugin list `["git", "git"]`
and no recommendations, the optimizer emits the plugin sequence
`["git"]`, because the current plugins pass through a Python set; the
claimed conjunction fails at this input since the input sequence is not
a prefix of the output. -/
theorem optimize_plugins_dup_current_cex :
    ¬ ((optimize_configurations c1current initial_recommendations).zsh.plugins.Nodup
       ∧ ["git", "git"]
           <+: (optimize_configurations c1current initial_recommendations).zsh.plugins) := by
  intro h
  rcases h.2 with ⟨t, ht⟩
  have hp : (optimize_configurations c1current initial_recommendations).zsh.plugins
      = ["git"] := by decide
  rw [hp] at ht
  have hlen := congrArg List.length ht
  simp [List.length_append] at hlen

theorem optimize_with_seed_plugins_eq (seed : List String)
    (current : CurrentConfigs) (reddit : Recommendations) :
    (optimize_configurations_with_seed seed current reddit).zsh.plugins
      = seed
        ++ (((sortByScoreDesc reddit.zsh_plugins).take 15).filter
              (fun p => decide (p.1 ∉ seed ∧ 500 < p.2))).map Prod.fst :=
  foldl_select_map (fun p : String × Int => p.1 ∉ seed ∧ 500 < p.2)
    ((sortByScoreDesc reddit.zsh_plugins).take 15) seed

/-- The concrete enumeration `pySet` used by the executable optimizer is
one of the enumerations the Python set of the current plugins may take:
it is duplicate-free and holds exactly the distinct current plugin
names. -/
theorem pySet_is_enumeration (l : List String) :
    (pySet l).Nodup ∧ ∀ x, x ∈ pySet l ↔ x ∈ l :=
  ⟨nodup_pySet l, mem_pySet l⟩

/-- C1 (amended): for every enumeration `seed` the Python set of the
current plugins may take — CPython iterates a set in hash-table order,
randomized per process, so every duplicate-free sequence holding exactly
the distinct current plugin names is possible — and for a recommendation
score table without duplicate names (a Python dictionary invariant), the
plugin sequence of the optimizer contains no duplicate entries and
equals that enumeration followed by exactly the qualifying recommended
plugins.  Hence the prefix holds exactly the distinct names of the
current-plugins sequence, in no guaranteed order; the executable
optimizer is the instance at the enumeration `pySet`. -/
theorem optimize_plugins_nodup_any_set_order :
    ∀ (current : CurrentConfigs) (reddit : Recommendations) (seed : List String),
      seed.Nodup →
      (∀ x, x ∈ seed ↔ x ∈ current.zsh.plugins) →
      (reddit.zsh_plugins.map Prod.fst).Nodup →
        (optimize_configurations_with_seed seed current reddit).zsh.plugins.Nodup
        ∧ (optimize_configurations_with_seed seed current reddit).zsh.plugins
            = seed
              ++ (((sortByScoreDesc reddit.zsh_plugins).take 15).filter
                    (fun p => decide (p.1 ∉ current.zsh.plugins ∧ 500 < p.2))).map
                  Prod.fst
        ∧ optimize_configurations current reddit
            = optimize_configurations_with_seed (pySet current.zsh.plugins)
                current reddit := by
  intro current reddit seed hsnd hmem hnd
  have heq := optimize_with_seed_plugins_eq seed current reddit
  have hcong : ((sortByScoreDesc reddit.zsh_plugins).take 15).filter
        (fun p => decide (p.1 ∉ seed ∧ 500 < p.2))
      = ((sortByScoreDesc reddit.zsh_plugins).take 15).filter
        (fun p => decide (p.1 ∉ current.zsh.plugins ∧ 500 < p.2)) := by
    apply List.filter_congr
    intro p _
    exact decide_eq_decide.mpr (by rw [hmem p.1])
  refine ⟨?_, by rw [heq, hcong], rfl⟩
  rw [heq]
  apply List.Nodup.append
  · exact hsnd
  · have hperm : ((sortByScoreDesc reddit.zsh_plugins).map Prod.fst).Perm
        (reddit.zsh_plugins.map Prod.fst) :=
      (perm_sortByScoreDesc reddit.zsh_plugins).map Prod.fst
    have hnd2 : ((sortByScoreDesc reddit.zsh_plugins).map Prod.fst).Nodup :=
      hperm.nodup_iff.mpr hnd
    have hsub : List.Sublist
        (((sortByScoreDesc reddit.zsh_plugins).take 15).filter
          (fun p => decide (p.1 ∉ seed ∧ 500 < p.2)))
        (sortByScoreDesc reddit.zsh_plugins) :=
      (List.filter_sublist _).trans (List.take_sublist _ _)
    exact hnd2.sublist (hsub.map Prod.fst)
  · intro a ha hb
    rcases List.mem_map.mp hb with ⟨p, hp, hfst⟩
    have hprop := of_decide_eq_true (List.mem_filter.mp hp).2
    exact hprop.1 (by rw [hfst]; exact ha)

/-- Witness for the amended C1 at a concrete input, with an enumeration
(`["z", "git"]`) that differs from the first-occurrence order of the
current plugin list `["git", "z"]`: the conclusion holds for this
hash-order-style enumeration as well. -/
theorem optimize_plugins_nodup_any_set_order_witness :
    (optimize_configurations_with_seed ["z", "git"] c1wcurrent c1wreddit).zsh.plugins.Nodup
    ∧ (optimize_configurations_with_seed ["z", "git"] c1wcurrent c1wreddit).zsh.plugins
        = ["z", "git"]
          ++ (((sortByScoreDesc c1wreddit.zsh_plugins).take 15).filter
                (fun p => decide (p.1 ∉ c1wcurrent.zsh.plugins ∧ 500 < p.2))).map
              Prod.fst
    ∧ optimize_configurations c1wcurrent c1wreddit
        = optimize_configurations_with_seed (pySet c1wcurrent.zsh.plugins)
            c1wcurrent c1wreddit :=
  optimize_plugins_nodup_any_set_order c1wcurrent c1wreddit ["z", "git"]
    (by decide)
    (by
      intro x
      show x ∈ ["z", "git"] ↔ x ∈ ["git", "z"]
      simp [or_comm])
    (by decide)

/-- C4: the plugins appended beyond the current-plugin prefix are exactly
the names among the top fifteen of the score table, sorted descending by
score with ties in first-observed order, that score above 500 and are
not already among the current plugins; the sorted table is a permutation
of the score table, is descending, and preserves the first-observed
order inside every score class. -/
theorem optimize_appended_plugins_spec :
    ∀ (current : CurrentConfigs) (reddit : Recommendations),
      (optimize_configurations current reddit).zsh.plugins
        = pySet current.zsh.plugins
          ++ (((sortByScoreDesc reddit.zsh_plugins).take 15).filter
                (fun p => decide (p.1 ∉ current.zsh.plugins ∧ 500 < p.2))).map Prod.fst
      ∧ (sortByScoreDesc reddit.zsh_plugins).Perm reddit.zsh_plugins
      ∧ List.Pairwise (fun a b : String × Int => b.2 ≤ a.2)
          (sortByScoreDesc reddit.zsh_plugins)
      ∧ ∀ s : Int,
          (sortByScoreDesc reddit.zsh_plugins).filter (fun p => p.2 == s)
            = reddit.zsh_plugins.filter (fun p => p.2 == s) := by
  intro current reddit
  refine ⟨?_, perm_sortByScoreDesc _, pairwise_sortByScoreDesc _,
    filter_sortByScoreDesc _⟩
  rw [optimize_plugins_eq current reddit]
  have hcong : ((sortByScoreDesc reddit.zsh_plugins).take 15).filter
        (fun p => decide (p.1 ∉ pySet current.zsh.plugins ∧ 500 < p.2))
      = ((sortByScoreDesc reddit.zsh_plugins).take 15).filter
        (fun p => decide (p.1 ∉ current.zsh.plugins ∧ 500 < p.2)) := by
    apply List.filter_congr
    intro p _
    exact decide_eq_decide.mpr (by simp [mem_pySet])
  rw [hcong]

/-! ## Soundness of the key-value scanners -/

theorem dropLit_spec : ∀ (ls cs r : List Char), dropLit ls cs = some r → cs = ls ++ r := by
  intro ls
  induction ls with
  | nil => intro cs r h; simp [dropLit] at h; simp [h]
  | cons l ls ih =>
    intro cs r h
    cases cs with
    | nil => simp [dropLit] at h
    | cons c cs2 =>
      unfold dropLit at h
      by_cases hc : c = l
      · simp [hc] at h
        simp [hc, ih cs2 r h]
      · simp [hc] at h

theorem mem_takeWhile_sat (p : Char → Bool) :
    ∀ (cs : List Char) (c : Char), c ∈ cs.takeWhile p → p c = true := by
  intro cs
  induction cs with
  | nil => intro c h; cases h
  | cons a as ih =>
    intro c h
    by_cases ha : p a
    · rw [List.takeWhile_cons, if_pos ha] at h
      rcases List.mem_cons.mp h with rfl | h2
      · exact ha
      · exact ih c h2
    · rw [List.takeWhile_cons, if_neg ha] at h
      cases h

theorem string_mk_data (l : List Char) : (String.mk l).data = l := rfl

theorem span1_spec (p : Char → Bool) (cs t r : List Char)
    (h : span1 p cs = some (t, r)) :
    cs = t ++ r ∧ t ≠ [] ∧ ∀ c ∈ t, p c = true := by
  unfold span1 at h
  by_cases he : (cs.takeWhile p).isEmpty
  · rw [if_pos he] at h
    cases h
  · rw [if_neg he] at h
    have h2 := Option.some.inj h
    have ht : cs.takeWhile p = t := congrArg Prod.fst h2
    have hr : cs.dropWhile p = r := congrArg Prod.snd h2
    subst ht
    subst hr
    refine ⟨(List.takeWhile_append_dropWhile p cs).symm, ?_, mem_takeWhile_sat p cs⟩
    intro hnil
    rw [hnil] at he
    exact he rfl

theorem matchKVAt_spec (lit cs : List Char) (n v : String) (rest : List Char)
    (h : matchKVAt lit cs = some ((n, v), rest)) :
    ∃ ws q1 q2,
      cs = lit ++ ws ++ n.data ++ '=' :: q1 :: (v.data ++ q2 :: rest)
      ∧ ws ≠ [] ∧ (∀ c ∈ ws, isSpaceChar c = true)
      ∧ n.data ≠ [] ∧ (∀ c ∈ n.data, isWordChar c = true)
      ∧ v.data ≠ [] ∧ (∀ c ∈ v.data, isValueChar c = true)
      ∧ isQuoteChar q1 = true ∧ isQuoteChar q2 = true := by
  unfold matchKVAt at h
  split at h
  · cases h
  next cs1 hdl =>
    split at h
    · cases h
    next ws cs2 hsp =>
      split at h
      · cases h
      next name cs3 hspn =>
        split at h
        next q1 cs5 =>
          split at h
          next hq1 =>
            split at h
            · cases h
            next value cs6 hspv =>
              split at h
              next q2 rest2 =>
                split at h
                next hq2 =>
                  have hinj := Option.some.inj h
                  have hn : String.mk name = n := congrArg (fun x => x.1.1) hinj
                  have hv : String.mk value = v := congrArg (fun x => x.1.2) hinj
                  have hrest2 : rest2 = rest := congrArg Prod.snd hinj
                  obtain ⟨hcs1, hws, hwsall⟩ := span1_spec isSpaceChar cs1 ws cs2 hsp
                  obtain ⟨hcs2, hname, hnameall⟩ :=
                    span1_spec isWordChar cs2 name ('=' :: q1 :: cs5) hspn
                  obtain ⟨hcs5, hvalue, hvalall⟩ :=
                    span1_spec isValueChar cs5 value (q2 :: rest2) hspv
                  have hcs := dropLit_spec lit cs cs1 hdl
                  subst hn
                  subst hv
                  subst hrest2
                  refine ⟨ws, q1, q2, ?_, hws, hwsall, hname, hnameall, hvalue, hvalall, hq1, hq2⟩
                  rw [hcs, hcs1, hcs2, hcs5]
                  simp [string_mk_data]
                · cases h
              · cases h
          · cases h
        · cases h

theorem isKVOccurrence_append (lit k text : List Char) (n v : String)
    (h : IsKVOccurrence lit text n v) : IsKVOccurrence lit (k ++ text) n v := by
  obtain ⟨pre, ws, q1, q2, post, heq, hrest⟩ := h
  exact ⟨k ++ pre, ws, q1, q2, post, by rw [heq]; simp, hrest⟩

theorem matchKVAt_consumes (lit cs : List Char) (a : String × String) (rest : List Char)
    (h : matchKVAt lit cs = some (a, rest)) : ∃ k, cs = k ++ rest := by
  obtain ⟨ws, q1, q2, hcs, _⟩ := matchKVAt_spec lit cs a.1 a.2 rest h
  refine ⟨lit ++ ws ++ a.1.data ++ '=' :: q1 :: (a.2.data ++ [q2]), ?_⟩
  rw [hcs]
  simp

theorem scanMatches_KV_spec (lit : List Char) :
    ∀ (fuel : Nat) (cs : List Char) (n v : String),
      (n, v) ∈ scanMatches (matchKVAt lit) fuel cs → IsKVOccurrence lit cs n v := by
  intro fuel
  induction fuel with
  | zero => intro cs n v h; cases h
  | succ fuel ih =>
    intro cs n v h
    cases cs with
    | nil => cases h
    | cons c cs2 =>
      unfold scanMatches at h
      split at h
      next a rest hm =>
        rcases List.mem_cons.mp h with heq | hmem2
        · have hm2 : matchKVAt lit (c :: cs2) = some ((n, v), rest) := by
            rw [hm, ← heq]
          obtain ⟨ws, q1, q2, hcs, hrest⟩ := matchKVAt_spec lit (c :: cs2) n v rest hm2
          exact ⟨[], ws, q1, q2, rest, by simpa using hcs, hrest⟩
        · obtain ⟨k, hk⟩ := matchKVAt_consumes lit (c :: cs2) a rest hm
          rw [hk]
          exact isKVOccurrence_append lit k rest n v (ih rest n v hmem2)
      next hm =>
        have := ih cs2 n v h
        exact isKVOccurrence_append lit [c] cs2 n v this

/-- C2 (code bug): the export pattern of `config_patterns` matches the
occurrence `export PATH="/usr/bin"` in the text, yet the exports table
produced by the analyzer on that text is empty, because no statement of
`analyze_current_configs` ever applies the export pattern. -/
theorem analyze_exports_never_populated :
    exportMatches c2text = [("PATH", "/usr/bin")]
    ∧ (analyze_current_configs c2text (fun _ => false)).zsh.exports = [] :=
  ⟨by decide, rfl⟩

/-- C3 (counterexample): the text `alias a="alias b=" more"` contains the
occurrence `alias b=" more"` (name `b`, value ` more`, double quoted,
value free of quotes and newlines), but the scan of `re.finditer`
consumes that occurrence inside the value of the earlier overlapping
occurrence for `a`, so the extracted alias table holds no entry for `b`
at all. -/
theorem alias_occurrence_skipped_cex :
    IsKVOccurrence aliasLit c3text "b" " more"
    ∧ lookupD (analyze_current_configs c3text (fun _ => false)).zsh.aliases "b"
        = none := by
  constructor
  · exact ⟨"alias a=\"".data, [' '], '"', '"', [], by decide, by decide, by decide,
      by decide, by decide, by decide, by decide, by decide, by decide⟩
  · decide

/-- C3 (amended): every entry emitted by the left-to-right,
non-overlapping alias scan of the analyzer is a genuine
`alias NAME="VALUE"` occurrence of the text, and the alias table of the
analyzer maps each scanned name to the value of the last scanned
occurrence of that name in document order. -/
theorem alias_matches_sound_last_wins :
    ∀ (content : List Char) (which_ok : String → Bool) (n v : String),
      (n, v) ∈ aliasMatches content →
        IsKVOccurrence aliasLit content n v
        ∧ ∃ w, lastFind (aliasMatches content) n = some w
            ∧ lookupD (analyze_current_configs content which_ok).zsh.aliases n
                = some w := by
  intro content which_ok n v hmem
  refine ⟨scanMatches_KV_spec aliasLit content.length content n v hmem, ?_⟩
  obtain ⟨w, hw⟩ := exists_lastFind_of_mem (aliasMatches content) n v hmem
  refine ⟨w, hw, ?_⟩
  have hal : (analyze_current_configs content which_ok).zsh.aliases
      = pyUpdate [] (aliasMatches content) := rfl
  rw [hal, lookupD_pyUpdate, hw]

/-- Witness for the amended C3 on the concrete text `alias ll="ls -la"`. -/
theorem alias_matches_sound_last_wins_witness :
    IsKVOccurrence aliasLit c3wtext "ll" "ls -la"
    ∧ ∃ w, lastFind (aliasMatches c3wtext) "ll" = some w
        ∧ lookupD (analyze_current_configs c3wtext (fun _ => false)).zsh.aliases "ll"
            = some w :=
  alias_matches_sound_last_wins c3wtext (fun _ => false) "ll" "ls -la" (by decide)

/-! ## Adequacy of the scanning fuel

Every match of the key-value pattern consumes at least one character, so
running the scanner with any fuel of at least the length of the text
gives the same match list as the fuel used by `aliasMatches` and
`exportMatches`: the fuel bounds the number of scan steps and is not a
semantic parameter. -/

theorem matchKVAt_shortens (lit cs : List Char) (a : String × String)
    (rest : List Char) (hlit : lit ≠ []) (h : matchKVAt lit cs = some (a, rest)) :
    rest.length < cs.length := by
  obtain ⟨ws, q1, q2, hcs, hrest⟩ := matchKVAt_spec lit cs a.1 a.2 rest h
  have hlen := congrArg List.length hcs
  simp only [List.length_append, List.length_cons] at hlen
  have hpos : 0 < lit.length := List.length_pos.mpr hlit
  omega

theorem scanMatches_fuel_irrelevant {α : Type}
    (m : List Char → Option (α × List Char))
    (hm : ∀ cs a rest, m cs = some (a, rest) → rest.length < cs.length) :
    ∀ (fuel1 fuel2 : Nat) (cs : List Char),
      cs.length ≤ fuel1 → cs.length ≤ fuel2 →
        scanMatches m fuel1 cs = scanMatches m fuel2 cs := by
  intro fuel1
  induction fuel1 with
  | zero =>
    intro fuel2 cs h1 _
    have hnil : cs = [] := List.length_eq_zero.mp (Nat.le_zero.mp h1)
    subst hnil
    cases fuel2 <;> rfl
  | succ fuel1 ih =>
    intro fuel2 cs h1 h2
    cases cs with
    | nil => cases fuel2 <;> rfl
    | cons c cs2 =>
      cases fuel2 with
      | zero => simp at h2
      | succ f2 =>
        show (match m (c :: cs2) with
              | some (a, rest) => a :: scanMatches m fuel1 rest
              | none => scanMatches m fuel1 cs2)
            = (match m (c :: cs2) with
              | some (a, rest) => a :: scanMatches m f2 rest
              | none => scanMatches m f2 cs2)
        cases hmc : m (c :: cs2) with
        | some pr =>
          obtain ⟨a, rest⟩ := pr
          have hlt := hm (c :: cs2) a rest hmc
          have hr1 : rest.length ≤ fuel1 := by
            simp only [List.length_cons] at hlt h1
            omega
          have hr2 : rest.length ≤ f2 := by
            simp only [List.length_cons] at hlt h2
            omega
          show a :: scanMatches m fuel1 rest = a :: scanMatches m f2 rest
          rw [ih f2 rest hr1 hr2]
        | none =>
          have hc1 : cs2.length ≤ fuel1 := by
            simp only [List.length_cons] at h1
            omega
          have hc2 : cs2.length ≤ f2 := by
            simp only [List.length_cons] at h2
            omega
          show scanMatches m fuel1 cs2 = scanMatches m f2 cs2
          exact ih f2 cs2 hc1 hc2

theorem aliasMatches_fuel_stable (content : List Char) (fuel : Nat)
    (h : content.length ≤ fuel) :
    scanMatches (matchKVAt aliasLit) fuel content = aliasMatches content :=
  scanMatches_fuel_irrelevant (matchKVAt aliasLit)
    (fun cs a rest => matchKVAt_shortens aliasLit cs a rest (by decide))
    fuel content.length content h (Nat.le_refl content.length)

theorem exportMatches_fuel_stable (content : List Char) (fuel : Nat)
    (h : content.length ≤ fuel) :
    scanMatches (matchKVAt exportLit) fuel content = exportMatches content :=
  scanMatches_fuel_irrelevant (matchKVAt exportLit)
    (fun cs a rest => matchKVAt_shortens exportLit cs a rest (by decide))
    fuel content.length content h (Nat.le_refl content.length)
